import Mathlib

/-!
Verification of the table-to-JSON conversion core of this repository
(src/src/taskpane/taskpane.ts) against its natural-language specification.

The embedding models the TypeScript/JavaScript source faithfully:

* Cell values delivered by the table source (`Excel.Range.values` /
  `Range.text`) are scalars: strings, numbers, or booleans.  Numeric cells
  are modelled as integers (no claim exercises non-integral numerics, NaN,
  or signed zero).
* A record under construction is a JavaScript object: an insertion-ordered
  list of string-keyed fields; assigning to an existing key updates it in
  place, assigning a new key appends it.  Within one conversion the record
  is a tree (fresh `\x7b\x7d` objects and scalar leaves only), so in-place
  mutation through the `innerObject` cursor is modelled by pure update
  along the key path.
* JavaScript truthiness drives the walk of `buildObject` (taskpane.ts
  lines 119-127): `0`, the empty string, `false`, `null` and `undefined`
  are falsy, every other scalar and every object is truthy.
* The deployed file registers its entry point on the global object and has
  no top-level import/export, so it is a classic script, i.e. non-strict
  code: assigning a property to a primitive receiver is a silent no-op,
  while reading a property of `undefined` (and assigning to it) throws a
  TypeError.  A thrown TypeError aborts the whole call; this is modelled
  with `Option` (`none` = the call threw).  Reading a property of a
  primitive (number / string / boolean) receiver is modelled as
  `undefined`; inherited prototype properties and string indexing are
  abstracted away (no header exercised by the specification names them).
-/

set_option maxHeartbeats 1000000

namespace Table2Json

/-- A scalar cell value as supplied by the table source
(string, number, or boolean; see spec section 3, TableBlock). -/
inductive Cell where
  | str (s : String)
  | num (n : Int)
  | bool (b : Bool)
deriving Repr, DecidableEq, Inhabited

/-- A JavaScript value reachable by the record-building walk of
`buildObject`: a scalar cell stored at a leaf, a nested object
(insertion-ordered fields), or `undefined` (only ever the cursor value
after descending through a primitive, never stored in a record). -/
inductive JValue where
  | cell (c : Cell)
  | obj (fields : List (String × JValue))
  | undef
deriving Repr

instance : Inhabited JValue := ⟨JValue.undef⟩

/-- JavaScript falsiness of a scalar cell: `0`, `""` and `false` are
falsy, everything else is truthy. -/
def jsFalsyCell : Cell → Bool
  | .num n => n == 0
  | .str s => s == ""
  | .bool b => !b

/-- JavaScript falsiness of a value met by the walk: objects are always
truthy, `undefined` is falsy, scalars follow `jsFalsyCell`. -/
def jsFalsy : JValue → Bool
  | .cell c => jsFalsyCell c
  | .obj _ => false
  | .undef => true

/-- A character of the regex class `[a-zA-Z0-9_]` (taskpane.ts line 102). -/
def isWordChar (c : Char) : Bool :=
  (('a' ≤ c) && (c ≤ 'z')) || (('A' ≤ c) && (c ≤ 'Z')) ||
    (('0' ≤ c) && (c ≤ '9')) || (c == '_')

/-- Deterministic matcher for the anchored regex
`^[a-zA-Z0-9_]+(\.[a-zA-Z0-9_]+)*$` of `isValidAttr` (taskpane.ts
line 102).  The boolean state records whether at least one word character
of the current segment has been consumed; acceptance requires ending
inside a non-empty segment. -/
def reMatch : Bool → List Char → Bool
  | inSeg, [] => inSeg
  | inSeg, c :: cs =>
    if isWordChar c then reMatch true cs
    else if c == '.' && inSeg then reMatch false cs
    else false

/-- `isValidAttr` (taskpane.ts lines 101-103):
`/^[a-zA-Z0-9_]+(\.[a-zA-Z0-9_]+)*$/.test(attrString)`. -/
def isValidAttr (s : String) : Bool :=
  reMatch false s.data

/-- The header-row validity computed by `fetchAllTables` (taskpane.ts
lines 76-77): every header is empty or a valid attribute, and some header
is a valid attribute.  (`!attr` on a string is true exactly for `""`.) -/
def isHeaderRowValid (headers : List String) : Bool :=
  (headers.all fun attr => (attr == "") || isValidAttr attr) &&
    (headers.any fun attr => isValidAttr attr)

/-- `String.prototype.split('.')`, on the character list: splits at every
dot, keeping empty pieces (so `"a."` splits into `["a", ""]`). -/
def splitChars : List Char → List (List Char)
  | [] => [[]]
  | c :: cs =>
    if c == '.' then [] :: splitChars cs
    else
      match splitChars cs with
      | [] => [[c]]
      | g :: gs => (c :: g) :: gs

/-- `attr.split('.')` of taskpane.ts line 119. -/
def splitOnDot (s : String) : List String :=
  (splitChars s.data).map fun g => String.mk g

/-- Property read on a JavaScript object: first (and, by construction,
only) binding of the key, or `none` for `undefined`. -/
def getField : List (String × JValue) → String → Option JValue
  | [], _ => none
  | (k, w) :: rest, key => if k == key then some w else getField rest key

/-- Property write on a JavaScript object: updates an existing binding in
place, otherwise appends the new binding (JS insertion order). -/
def setField : List (String × JValue) → String → JValue → List (String × JValue)
  | [], key, v => [(key, v)]
  | (k, w) :: rest, key, v =>
    if k == key then (k, v) :: rest else (k, w) :: setField rest key v

/-- The per-column walk of `buildObject` (taskpane.ts lines 119-127):
starting from the cursor `cur`, walk/create the intermediate segments and
assign the cell value under the final segment.  A level whose current
value is falsy (absent, or a stored falsy scalar) is overwritten with a
fresh empty object; a truthy value is descended into unchanged.  `none`
models a thrown TypeError (property access on `undefined`); assigning a
property of a primitive receiver is the non-strict silent no-op. -/
def setPath : JValue → List String → Cell → Option JValue
  | cur, [], _ => some cur
  | cur, [last], value =>
    match cur with
    | .obj fields => some (.obj (setField fields last (.cell value)))
    | .cell _ => some cur
    | .undef => none
  | cur, seg :: rest, value =>
    match cur with
    | .obj fields =>
      match getField fields seg with
      | some child =>
        if jsFalsy child then
          (setPath (.obj []) rest value).map fun c => .obj (setField fields seg c)
        else
          (setPath child rest value).map fun c => .obj (setField fields seg c)
      | none =>
        (setPath (.obj []) rest value).map fun c => .obj (setField fields seg c)
    | .cell _ => setPath .undef rest value
    | .undef => none

/-- The inner column loop of `buildObject` (taskpane.ts lines 112-128):
for each column of the row, skip it when its header entry is missing or
empty (`!attr`), otherwise run the key-path walk.  The loop is bounded by
the row's column count; header entries beyond it are never read. -/
def buildObjectRow : JValue → List Cell → List String → Option JValue
  | o, [], _ => some o
  | o, _v :: cols, [] => buildObjectRow o cols []
  | o, v :: cols, k :: keys =>
    if k == "" then buildObjectRow o cols keys
    else
      match setPath o (splitOnDot k) v with
      | some o' => buildObjectRow o' cols keys
      | none => none

/-- `buildObject` (taskpane.ts lines 105-132): one fresh record per row,
pushed in row order; a TypeError thrown while processing any row aborts
the whole call (`none`). -/
def buildObject : List (List Cell) → List String → Option (List JValue)
  | [], _ => some []
  | row :: rows, keys =>
    match buildObjectRow (JValue.obj []) row keys with
    | none => none
    | some r =>
      match buildObject rows keys with
      | none => none
      | some rest => some (r :: rest)

/-- One hexadecimal digit, lowercase, as produced by `JSON.stringify`'s
control-character escapes. -/
def hexDigit (n : Nat) : Char :=
  if n < 10 then Char.ofNat (48 + n) else Char.ofNat (87 + n)

/-- `JSON.stringify`'s escaping of one string character. -/
def escapeChar (c : Char) : String :=
  if c == '"' then "\\\""
  else if c == '\\' then "\\\\"
  else if c == '\n' then "\\n"
  else if c == '\r' then "\\r"
  else if c == '\t' then "\\t"
  else if c == Char.ofNat 8 then "\\b"
  else if c == Char.ofNat 12 then "\\f"
  else if c.toNat < 32 then
    "\\u00" ++ String.mk [hexDigit (c.toNat / 16), hexDigit (c.toNat % 16)]
  else String.mk [c]

/-- A JSON string literal: the escaped characters between double quotes. -/
def quoteString (s : String) : String :=
  "\"" ++ String.join (s.data.map escapeChar) ++ "\""

/-- `JSON.stringify` of a scalar cell value. -/
def stringifyCell : Cell → String
  | .str s => quoteString s
  | .num n => toString n
  | .bool b => if b then ("true") else ("false")

mutual

/-- `JSON.stringify(o, null)` (taskpane.ts line 176): compact JSON text,
fields in insertion order.  (`undefined` never occurs inside a record
built by `buildObject`; its branch is arbitrary.) -/
def stringify : JValue → String
  | .cell c => stringifyCell c
  | .undef => "null"
  | .obj fields => "\x7b" ++ stringifyFields fields ++ "\x7d"

/-- Comma-separated `"key":value` members of an object literal. -/
def stringifyFields : List (String × JValue) → String
  | [] => ""
  | [(k, v)] => quoteString k ++ ":" ++ stringify v
  | (k, v) :: rest => quoteString k ++ ":" ++ stringify v ++ "," ++ stringifyFields rest

end

/-- `Array.prototype.map` with the element index passed to the callback,
starting from the given index. -/
def mapWithIndex {α β : Type} (f : Nat → α → β) : Nat → List α → List β
  | _, [] => []
  | i, a :: rest => f i a :: mapWithIndex f (i + 1) rest

/-- The `jsonFormatter` lambda of `makeJsonSheet` (taskpane.ts lines
172-179): one line `[`, one line per record (its compact JSON text, plus a
trailing comma on every line but the last), one line `]`. -/
def jsonFormatter (data : List JValue) : List String :=
  ("[") :: (mapWithIndex
    (fun index o => stringify o ++ (if index < data.length - 1 then (",") else ("")))
    0 data ++ [("]")])

/-- The per-table data assembled by `fetchAllTables` (taskpane.ts lines
40-45 and 73-79): table name, the text row above the table, its validity,
and the data-body values (read only when the table is valid). -/
structure TableDetail where
  name : String
  attrRow : List String
  isValid : Bool
  values : List (List Cell)
deriving Repr

/-- Builds a `TableDetail` the way `fetchAllTables` does (taskpane.ts
lines 73-79): `isValid` is computed from the attribute row. -/
def mkTableDetail (name : String) (attrRow : List String)
    (values : List (List Cell)) : TableDetail :=
  ⟨name, attrRow, isHeaderRowValid attrRow, values⟩

/-- The row count reported by `updateSheet` (taskpane.ts line 149):
the body's row count for a valid table, `0` otherwise. -/
def tableRowCount (t : TableDetail) : Nat :=
  if t.isValid then t.values.length else 0

/-- One iteration of the JSON loop of `updateSheet` (taskpane.ts lines
154-161): a valid table is converted by `buildObject` and formatted, an
invalid table contributes an empty line list; `none` models the loop
iteration throwing. -/
def tableJson (t : TableDetail) : Option (List String) :=
  if t.isValid then (buildObject t.values t.attrRow).map jsonFormatter
  else some []

/-- The per-table report assembled by `updateSheet` (taskpane.ts lines
144-161): name, validity flag, row count and JSON lines for each table in
order.  A throw while converting any table aborts the whole call before
anything is synced to the sheet (`none`); the grid write itself
(lines 162-164) is host-I/O glue, out of scope per spec section 1. -/
def updateSheetReport : List TableDetail → Option (List (String × Bool × Nat × List String))
  | [] => some []
  | t :: ts =>
    match tableJson t with
    | none => none
    | some j =>
      match updateSheetReport ts with
      | none => none
      | some rest => some ((t.name, t.isValid, tableRowCount t, j) :: rest)

/-- Segments joined by single `.` separators (spec section 4.1's reading
of the key-path grammar), at the character level. -/
def joinDots : List (List Char) → List Char
  | [] => []
  | [g] => g
  | g :: gs => g ++ '.' :: joinDots gs

/-- The specification's characterization of a well-formed key path (spec
sections 3 and 4.1): one or more non-empty segments of word characters,
joined by single dots, and nothing else. -/
def specKeyPath (s : String) : Prop :=
  ∃ segs : List (List Char), segs ≠ [] ∧
    (∀ g ∈ segs, g ≠ [] ∧ ∀ c ∈ g, isWordChar c = true) ∧
    s.data = joinDots segs

/-! ### Helper lemmas -/

/-- A row whose header list is exhausted only skips columns. -/
lemma buildObjectRow_nil_keys (cols : List Cell) :
    ∀ o : JValue, buildObjectRow o cols [] = some o := by
  induction cols with
  | nil => intro o; rfl
  | cons v cs ih => intro o; exact ih o

/-- The column loop reads only the aligned prefix of row and headers. -/
lemma buildObjectRow_take (cols : List Cell) :
    ∀ (keys : List String) (o : JValue),
      buildObjectRow o cols keys =
        buildObjectRow o (cols.take keys.length) (keys.take cols.length) := by
  induction cols with
  | nil => intro keys o; simp [buildObjectRow]
  | cons v cs ih =>
    intro keys o
    cases keys with
    | nil => simp [buildObjectRow_nil_keys, buildObjectRow]
    | cons k ks =>
      simp only [List.length_cons, List.take_succ_cons, buildObjectRow]
      by_cases hk : (k == "") = true
      · simp only [hk, if_true]
        exact ih ks o
      · simp only [hk, if_false]
        cases hsp : setPath o (splitOnDot k) v with
        | none => rfl
        | some o' => exact ih ks o'

/-- Truncating the row to the header count does not change the result. -/
lemma buildObjectRow_take_left (cols : List Cell) :
    ∀ (keys : List String) (o : JValue),
      buildObjectRow o (cols.take keys.length) keys = buildObjectRow o cols keys := by
  induction cols with
  | nil => intro keys o; simp
  | cons v cs ih =>
    intro keys o
    cases keys with
    | nil => simp [buildObjectRow_nil_keys, buildObjectRow]
    | cons k ks =>
      simp only [List.length_cons, List.take_succ_cons, buildObjectRow]
      by_cases hk : (k == "") = true
      · simp only [hk, if_true]
        exact ih ks o
      · simp only [hk, if_false]
        cases hsp : setPath o (splitOnDot k) v with
        | none => rfl
        | some o' => exact ih ks o'

/-- A column whose header entry is the empty string is a no-op of the
column loop, at any aligned position. -/
lemma buildObjectRow_skip_empty (cols1 : List Cell) :
    ∀ (keys1 : List String) (o : JValue) (v : Cell) (cols2 : List Cell)
      (keys2 : List String), keys1.length = cols1.length →
      buildObjectRow o (cols1 ++ v :: cols2) (keys1 ++ ("") :: keys2) =
        buildObjectRow o (cols1 ++ cols2) (keys1 ++ keys2) := by
  induction cols1 with
  | nil =>
    intro keys1 o v cols2 keys2 h
    obtain rfl : keys1 = [] := List.length_eq_zero.mp h
    simp [buildObjectRow]
  | cons c cs ih =>
    intro keys1 o v cols2 keys2 h
    cases keys1 with
    | nil => simp at h
    | cons k ks =>
      simp only [List.length_cons, Nat.succ_inj] at h
      simp only [List.cons_append, buildObjectRow]
      by_cases hk : (k == "") = true
      · simp only [hk, if_true]
        exact ih ks o v cols2 keys2 h
      · simp only [hk, if_false]
        cases hsp : setPath o (splitOnDot k) c with
        | none => rfl
        | some o' => exact ih ks o' v cols2 keys2 h

/-- `mapWithIndex` preserves length. -/
lemma length_mapWithIndex {α β : Type} (f : Nat → α → β) :
    ∀ (i : Nat) (l : List α), (mapWithIndex f i l).length = l.length
  | _, [] => rfl
  | i, _ :: rest => congrArg Nat.succ (length_mapWithIndex f (i + 1) rest)

/-- Index access through `mapWithIndex`. -/
lemma getElem?_mapWithIndex {α β : Type} (f : Nat → α → β) (l : List α) :
    ∀ (i j : Nat), (mapWithIndex f i l)[j]? = (l[j]?).map fun a => f (i + j) a := by
  induction l with
  | nil => intro i j; simp [mapWithIndex]
  | cons a rest ih =>
    intro i j
    cases j with
    | zero => simp [mapWithIndex]
    | succ j' =>
      simp only [mapWithIndex, List.getElem?_cons_succ]
      rw [ih (i + 1) j']
      have h : i + (j' + 1) = i + 1 + j' := by omega
      rw [h]

/-- Splitting always yields at least one (possibly empty) piece. -/
lemma splitChars_ne_nil : ∀ l : List Char, splitChars l ≠ [] := by
  intro l
  cases l with
  | nil => simp [splitChars]
  | cons c cs =>
    simp only [splitChars]
    by_cases h : (c == '.') = true
    · simp [h]
    · have h' : (c == '.') = false := by revert h; cases c == '.' <;> simp
      simp only [h', if_false]
      cases hs : splitChars cs <;> simp

/-- A word character is not the dot separator. -/
lemma word_ne_dot (c : Char) (h : isWordChar c = true) : (c == '.') = false := by
  by_cases hd : (c == '.') = true
  · rw [eq_of_beq hd] at h
    exact absurd h (by decide)
  · revert hd; cases c == '.' <;> simp

/-- The regex matcher agrees with the split-based reading: in the
in-segment state the first piece of the remaining input may be empty, in
the out-of-segment state every piece must be a non-empty run of word
characters. -/
lemma reMatch_eq_splitChars : ∀ l : List Char,
    (∀ g gs, splitChars l = g :: gs →
      reMatch true l =
        (g.all isWordChar && gs.all fun h => !h.isEmpty && h.all isWordChar)) ∧
    reMatch false l = (splitChars l).all fun g => !g.isEmpty && g.all isWordChar := by
  intro l
  induction l with
  | nil =>
    constructor
    · intro g gs hsp
      simp only [splitChars] at hsp
      injection hsp with h1 h2
      subst h1; subst h2
      rfl
    · rfl
  | cons c cs ih =>
    obtain ⟨ihT, ihF⟩ := ih
    by_cases hw : isWordChar c = true
    · have hdot : (c == '.') = false := word_ne_dot c hw
      obtain ⟨g, gs, hsp⟩ : ∃ g gs, splitChars cs = g :: gs := by
        cases h : splitChars cs with
        | nil => exact absurd h (splitChars_ne_nil cs)
        | cons g gs => exact ⟨g, gs, rfl⟩
      have hsp2 : splitChars (c :: cs) = (c :: g) :: gs := by
        simp [splitChars, hdot, hsp]
      constructor
      · intro g' gs' h'
        rw [hsp2] at h'
        injection h' with h1 h2
        subst h1; subst h2
        rw [show reMatch true (c :: cs) = reMatch true cs from by simp [reMatch, hw]]
        rw [ihT g gs hsp]
        simp [List.all_cons, hw]
      · rw [hsp2]
        rw [show reMatch false (c :: cs) = reMatch true cs from by simp [reMatch, hw]]
        rw [ihT g gs hsp]
        simp [List.all_cons, hw, Bool.and_assoc]
    · have hw' : isWordChar c = false := by revert hw; cases isWordChar c <;> simp
      by_cases hd : (c == '.') = true
      · rw [eq_of_beq hd] at hw' ⊢
        have hsp2 : splitChars ('.' :: cs) = [] :: splitChars cs := by
          simp [splitChars]
        constructor
        · intro g' gs' h'
          rw [hsp2] at h'
          injection h' with h1 h2
          subst h1; subst h2
          rw [show reMatch true ('.' :: cs) = reMatch false cs from rfl, ihF]
          simp
        · rw [hsp2]
          rw [show reMatch false ('.' :: cs) = false from rfl]
          simp [List.all_cons]
      · have hd' : (c == '.') = false := by revert hd; cases c == '.' <;> simp
        obtain ⟨g, gs, hsp⟩ : ∃ g gs, splitChars cs = g :: gs := by
          cases h : splitChars cs with
          | nil => exact absurd h (splitChars_ne_nil cs)
          | cons g gs => exact ⟨g, gs, rfl⟩
        have hsp2 : splitChars (c :: cs) = (c :: g) :: gs := by
          simp [splitChars, hd', hsp]
        have hfail : ∀ b : Bool, reMatch b (c :: cs) = false := by
          intro b; simp [reMatch, hw', hd']
        constructor
        · intro g' gs' h'
          rw [hsp2] at h'
          injection h' with h1 h2
          subst h1; subst h2
          rw [hfail true]
          simp [List.all_cons, hw']
        · rw [hsp2, hfail false]
          simp [List.all_cons, hw']

/-- Joining the split pieces with dots recovers the original characters. -/
lemma joinDots_splitChars : ∀ l : List Char, joinDots (splitChars l) = l := by
  intro l
  induction l with
  | nil => rfl
  | cons c cs ih =>
    by_cases h : (c == '.') = true
    · rw [eq_of_beq h]
      have hsp : splitChars ('.' :: cs) = [] :: splitChars cs := by
        simp [splitChars]
      rw [hsp]
      cases hcs : splitChars cs with
      | nil => exact absurd hcs (splitChars_ne_nil cs)
      | cons g gs =>
        rw [hcs] at ih
        show joinDots ([] :: g :: gs) = '.' :: cs
        simp only [joinDots]
        rw [ih]
        rfl
    · have h' : (c == '.') = false := by revert h; cases c == '.' <;> simp
      cases hcs : splitChars cs with
      | nil => exact absurd hcs (splitChars_ne_nil cs)
      | cons g gs =>
        have hsp : splitChars (c :: cs) = (c :: g) :: gs := by
          simp [splitChars, h', hcs]
        rw [hsp]
        rw [hcs] at ih
        cases gs with
        | nil =>
          simp only [joinDots] at ih ⊢
          rw [ih]
        | cons g2 t =>
          simp only [joinDots] at ih ⊢
          rw [List.cons_append, ih]

/-- Splitting a dot-free piece yields just that piece. -/
lemma splitChars_no_dot (g : List Char) (h : ∀ c ∈ g, (c == '.') = false) :
    splitChars g = [g] := by
  induction g with
  | nil => rfl
  | cons c cs ih =>
    have hc := h c (List.mem_cons_self c cs)
    have hrest : splitChars cs = [cs] :=
      ih fun x hx => h x (List.mem_cons_of_mem c hx)
    simp [splitChars, hc, hrest]

/-- Splitting after a dot-free prefix peels off exactly that prefix. -/
lemma splitChars_append_dot (g : List Char) (h : ∀ c ∈ g, (c == '.') = false) :
    ∀ t : List Char, splitChars (g ++ '.' :: t) = g :: splitChars t := by
  induction g with
  | nil => intro t; simp [splitChars]
  | cons c cs ih =>
    intro t
    have hc := h c (List.mem_cons_self c cs)
    have hrest := ih (fun x hx => h x (List.mem_cons_of_mem c hx)) t
    simp [splitChars, hc, hrest]

/-- Splitting the dot-join of dot-free segments recovers the segments. -/
lemma splitChars_joinDots : ∀ segs : List (List Char), segs ≠ [] →
    (∀ g ∈ segs, ∀ c ∈ g, (c == '.') = false) →
    splitChars (joinDots segs) = segs := by
  intro segs
  induction segs with
  | nil => intro h; exact absurd rfl h
  | cons g segs ih =>
    intro _ hall
    cases segs with
    | nil =>
      show splitChars (joinDots [g]) = [g]
      simp only [joinDots]
      exact splitChars_no_dot g (hall g (List.mem_cons_self g []))
    | cons g2 t =>
      show splitChars (joinDots (g :: g2 :: t)) = g :: g2 :: t
      simp only [joinDots]
      rw [splitChars_append_dot g (hall g (List.mem_cons_self g (g2 :: t)))]
      rw [ih (by simp) fun x hx c hc => hall x (List.mem_cons_of_mem g hx) c hc]

/-! ### Claim theorems -/

/-- Claim C1: `buildObject` merges columns sharing a dotted path prefix
into one nested sub-object per row; for headers `id`, `addr.city`,
`addr.zip` and a single row of any three cell values the result is one
record with the two address columns merged under `addr`; in particular,
for the row `[1, "Paris", "75001"]` it is exactly one record
with id 1 and addr holding city "Paris" and zip "75001". -/
theorem claim_c1 :
    (∀ a b c : Cell,
      buildObject [[a, b, c]] [("id"), ("addr.city"), ("addr.zip")] =
        some [JValue.obj [(("id"), JValue.cell a),
          (("addr"), JValue.obj [(("city"), JValue.cell b),
            (("zip"), JValue.cell c)])]]) ∧
    buildObject [[Cell.num 1, Cell.str ("Paris"), Cell.str ("75001")]]
        [("id"), ("addr.city"), ("addr.zip")] =
      some [JValue.obj [(("id"), JValue.cell (Cell.num 1)),
        (("addr"), JValue.obj [(("city"), JValue.cell (Cell.str ("Paris"))),
          (("zip"), JValue.cell (Cell.str ("75001")))])]] :=
  ⟨fun _ _ _ => rfl, rfl⟩

/-- Claim C2 (failing inputs): with headers `a` and `a.b`, the resolution
of the conflicting nesting varies with the cell value stored under `a`: a
falsy `0` is silently replaced, so the later column wins, while a truthy
`5` survives and the later column's value is dropped; and with headers
`a` and `a.b.c` over a truthy `5` the whole call throws a TypeError.
This contradicts the claim that the resolution does not vary with the
cell values involved and that the operation never panics. -/
theorem claim_c2_bug :
    buildObject [[Cell.num 0, Cell.str ("x")]] [("a"), ("a.b")] =
        some [JValue.obj [(("a"),
          JValue.obj [(("b"), JValue.cell (Cell.str ("x")))])]] ∧
      buildObject [[Cell.num 5, Cell.str ("x")]] [("a"), ("a.b")] =
        some [JValue.obj [(("a"), JValue.cell (Cell.num 5))]] ∧
      buildObject [[Cell.num 5, Cell.num 7]] [("a"), ("a.b.c")] = none :=
  ⟨rfl, rfl, rfl⟩

/-- Claim C4: a header row is valid iff every non-empty entry is a valid
key path and at least one entry is non-empty; `[]` and `["", ""]` are
invalid and `["", "a.b"]` is valid. -/
theorem claim_c4 :
    (∀ headers : List String, isHeaderRowValid headers = true ↔
      ((∀ a ∈ headers, a ≠ "" → isValidAttr a = true) ∧ ∃ a ∈ headers, a ≠ "")) ∧
    isHeaderRowValid [] = false ∧
    isHeaderRowValid [(""), ("")] = false ∧
    isHeaderRowValid [(""), ("a.b")] = true := by
  refine ⟨?_, rfl, rfl, rfl⟩
  intro headers
  simp only [isHeaderRowValid, Bool.and_eq_true, List.all_eq_true,
    List.any_eq_true, Bool.or_eq_true, beq_iff_eq]
  constructor
  · rintro ⟨hall, a, ha, hva⟩
    refine ⟨fun b hb hbne => ?_, a, ha, fun he => ?_⟩
    · rcases hall b hb with h | h
      · exact absurd h hbne
      · exact h
    · rw [he] at hva
      exact absurd hva (by decide)
  · rintro ⟨hall, a, ha, hane⟩
    refine ⟨fun b hb => ?_, a, ha, hall a ha hane⟩
    by_cases hbe : b = ""
    · exact Or.inl hbe
    · exact Or.inr (hall b hb hbe)

/-- Claim C5, amended: when `buildObject` completes without throwing, it
returns exactly one record per input row, in input order, each record
depending only on its own row (no merging, dropping, reordering or
duplication); a conflicting key path descending through a truthy scalar
can instead make the whole call throw, in which case no sequence is
returned at all. -/
theorem claim_c5_amended (values : List (List Cell)) :
    ∀ (keys : List String) (res : List JValue),
      buildObject values keys = some res →
      res.length = values.length ∧
        ∀ i : Nat, res[i]? =
          (values[i]?).bind fun row => buildObjectRow (JValue.obj []) row keys := by
  induction values with
  | nil =>
    intro keys res h
    simp only [buildObject, Option.some.injEq] at h
    subst h
    exact ⟨rfl, fun i => by simp⟩
  | cons row rows ih =>
    intro keys res h
    simp only [buildObject] at h
    cases hr : buildObjectRow (JValue.obj []) row keys with
    | none => rw [hr] at h; exact absurd h (by simp)
    | some r =>
      rw [hr] at h
      cases hrest : buildObject rows keys with
      | none => rw [hrest] at h; exact absurd h (by simp)
      | some rest =>
        rw [hrest] at h
        obtain rfl : r :: rest = res := Option.some.inj h
        obtain ⟨hlen, hidx⟩ := ih keys rest hrest
        refine ⟨by simp [hlen], ?_⟩
        intro i
        cases i with
        | zero => simp [hr]
        | succ i' =>
          simp only [List.getElem?_cons_succ]
          exact hidx i'

/-- Claim C5 witness. -/
theorem claim_c5_witness :
    ([JValue.obj [(("a"), JValue.cell (Cell.num 1))]] : List JValue).length =
        ([[Cell.num 1]] : List (List Cell)).length ∧
      ∀ i : Nat, ([JValue.obj [(("a"), JValue.cell (Cell.num 1))]] : List JValue)[i]? =
        (([[Cell.num 1]] : List (List Cell))[i]?).bind
          fun row => buildObjectRow (JValue.obj []) row [("a")] :=
  claim_c5_amended [[Cell.num 1]] [("a")] [JValue.obj [(("a"), JValue.cell (Cell.num 1))]] rfl

/-- Claim C5 counterexample: for this block and header row the call
throws, so no sequence of records (of any length) is returned, refuting
the unconditional row-count claim. -/
theorem claim_c5_counterexample :
    buildObject [[Cell.num 5, Cell.num 7]] [("a"), ("a.b.c")] = none := rfl

/-- Claim C7, amended: columns beyond the shorter of the header row and
the data row are ignored — the result equals the result on the aligned
prefix, so misalignment itself never causes an error — but the call may
still throw for a reason independent of alignment (a conflicting key
path), so it does not return a record per row unconditionally. -/
theorem claim_c7_amended :
    (∀ (cols : List Cell) (keys : List String),
      buildObjectRow (JValue.obj []) cols keys =
        buildObjectRow (JValue.obj []) (cols.take keys.length) (keys.take cols.length)) ∧
    ∀ (values : List (List Cell)) (keys : List String),
      buildObject values keys =
        buildObject (values.map fun cols => cols.take keys.length) keys := by
  refine ⟨fun cols keys => buildObjectRow_take cols keys (JValue.obj []), ?_⟩
  intro values keys
  induction values with
  | nil => rfl
  | cons row rows ih =>
    simp only [buildObject, List.map_cons]
    rw [ih, buildObjectRow_take_left row keys (JValue.obj [])]

/-- Claim C7 counterexample: a block with three columns against a header
row with two entries (unequal column counts) on which the call errors,
refuting "buildRecords does not error" for misaligned input. -/
theorem claim_c7_counterexample :
    buildObject [[Cell.num 5, Cell.num 7, Cell.num 9]] [("a"), ("a.b.c")] = none := rfl

/-- Claim C9: a column whose header entry is the empty string is skipped
entirely — removing such a column together with its header entry (at any
aligned position) leaves the result unchanged, so its cell value appears
nowhere in the record; in particular headers `["", "x"]` with row
`["ignored", 5]` yield exactly one record holding only x with value 5. -/
theorem claim_c9 :
    (∀ (cols1 : List Cell) (keys1 : List String) (v : Cell) (cols2 : List Cell)
      (keys2 : List String), keys1.length = cols1.length →
      buildObjectRow (JValue.obj []) (cols1 ++ v :: cols2) (keys1 ++ ("") :: keys2) =
        buildObjectRow (JValue.obj []) (cols1 ++ cols2) (keys1 ++ keys2)) ∧
    buildObject [[Cell.str ("ignored"), Cell.num 5]] [(""), ("x")] =
      some [JValue.obj [(("x"), JValue.cell (Cell.num 5))]] :=
  ⟨fun cols1 keys1 v cols2 keys2 h =>
    buildObjectRow_skip_empty cols1 keys1 (JValue.obj []) v cols2 keys2 h, rfl⟩

/-- Claim C9 witness. -/
theorem claim_c9_witness :
    buildObjectRow (JValue.obj []) ([Cell.num 1] ++ Cell.str ("dropme") :: [])
        ([("k")] ++ ("") :: []) =
      buildObjectRow (JValue.obj []) ([Cell.num 1] ++ []) ([("k")] ++ []) :=
  claim_c9.1 [Cell.num 1] [("k")] (Cell.str ("dropme")) [] [] rfl

/-- Claim C10: walking an intermediate segment, the builder creates a
fresh empty mapping not only when the level is absent but whenever the
value stored there is falsy — a falsy scalar is silently replaced by the
branch mapping — whereas a truthy scalar is left in place and descended
into (so the assignment under it is lost, and a still deeper path throws
on the resulting `undefined`). -/
theorem claim_c10 (w v : Cell) :
    (buildObjectRow (JValue.obj []) [v] [("a.b")] =
      some (JValue.obj [(("a"), JValue.obj [(("b"), JValue.cell v)])])) ∧
    (jsFalsyCell w = true →
      buildObjectRow (JValue.obj []) [w, v] [("a"), ("a.b")] =
        some (JValue.obj [(("a"), JValue.obj [(("b"), JValue.cell v)])])) ∧
    (jsFalsyCell w = false →
      buildObjectRow (JValue.obj []) [w, v] [("a"), ("a.b")] =
          some (JValue.obj [(("a"), JValue.cell w)]) ∧
        buildObjectRow (JValue.obj []) [w, v] [("a"), ("a.b.c")] = none) := by
  refine ⟨rfl, fun h => ?_, fun h => ⟨?_, ?_⟩⟩
  · simp [buildObjectRow, setPath, splitOnDot, splitChars, getField, setField,
      jsFalsy, h]
  · simp [buildObjectRow, setPath, splitOnDot, splitChars, getField, setField,
      jsFalsy, h]
  · simp [buildObjectRow, setPath, splitOnDot, splitChars, getField, setField,
      jsFalsy, h]

/-- Claim C10 witness. -/
theorem claim_c10_witness :
    buildObjectRow (JValue.obj []) [Cell.num 0, Cell.num 7] [("a"), ("a.b")] =
        some (JValue.obj [(("a"),
          JValue.obj [(("b"), JValue.cell (Cell.num 7))])]) ∧
      buildObjectRow (JValue.obj []) [Cell.num 5, Cell.num 7] [("a"), ("a.b")] =
        some (JValue.obj [(("a"), JValue.cell (Cell.num 5))]) :=
  ⟨(claim_c10 (Cell.num 0) (Cell.num 7)).2.1 rfl,
    ((claim_c10 (Cell.num 5) (Cell.num 7)).2.2 rfl).1⟩

/-- Claim C6: the formatter yields one line `[`, then one line per record
in order — its compact JSON text with a trailing comma on every line but
the last — then one line `]`; on the empty sequence it is exactly the two
lines `[` and `]`. -/
theorem claim_c6 :
    jsonFormatter [] = [("["), ("]")] ∧
    ∀ rs : List JValue,
      (jsonFormatter rs).length = rs.length + 2 ∧
      (jsonFormatter rs).head? = some ("[") ∧
      (jsonFormatter rs).getLast? = some ("]") ∧
      ∀ i : Nat, i < rs.length →
        (jsonFormatter rs)[i + 1]? =
          (rs[i]?).map fun o =>
            stringify o ++ (if i + 1 = rs.length then ("") else (",")) := by
  refine ⟨rfl, fun rs => ⟨?_, rfl, ?_, ?_⟩⟩
  · simp only [jsonFormatter, List.length_cons, List.length_append,
      length_mapWithIndex, List.length_nil]
  · show ((("[") :: mapWithIndex _ 0 rs) ++ [("]")]).getLast? = some ("]")
    exact List.getLast?_concat _
  · intro i hi
    simp only [jsonFormatter, List.getElem?_cons_succ]
    rw [List.getElem?_append_left (by rw [length_mapWithIndex]; exact hi)]
    rw [getElem?_mapWithIndex]
    simp only [Nat.zero_add]
    rw [List.getElem?_eq_getElem hi]
    simp only [Option.map_some']
    have hcond : (if i < rs.length - 1 then (",") else ("")) =
        (if i + 1 = rs.length then ("") else (",")) := by
      by_cases hc : i + 1 = rs.length
      · rw [if_pos hc, if_neg (by omega)]
      · rw [if_neg hc, if_pos (by omega)]
    rw [hcond]

/-- Claim C6 witness. -/
theorem claim_c6_witness :
    (jsonFormatter [JValue.obj [(("a"), JValue.cell (Cell.num 1))],
        JValue.obj [(("b"), JValue.cell (Cell.num 2))]])[0 + 1]? =
      some ("\x7b\"a\":1\x7d,") :=
  Eq.trans
    ((claim_c6.2 [JValue.obj [(("a"), JValue.cell (Cell.num 1))],
      JValue.obj [(("b"), JValue.cell (Cell.num 2))]]).2.2.2 0 (by decide))
    rfl

/-- Claim C8, amended: a table whose header row is invalid is reported
with its name, validity `false`, row count `0` and an empty sequence of
JSON lines, while every valid table in the same batch is still converted
normally — per-table validation failures never abort the conversion (a
`none` report can only come from a valid table whose conversion throws).
The claim's particular example is amended: headers `["1bad", ""]` are in
fact valid (segments may start with digits), so a genuinely invalid
header such as `"a b"` is used instead. -/
theorem claim_c8_amended :
    (∀ t : TableDetail, t.isValid = false →
      tableJson t = some [] ∧ tableRowCount t = 0) ∧
    (∀ (ts : List TableDetail) (res : List (String × Bool × Nat × List String)),
      updateSheetReport ts = some res →
      res.length = ts.length ∧
        ∀ i : Nat, res[i]? = (ts[i]?).bind fun t =>
          (tableJson t).map fun j => (t.name, t.isValid, tableRowCount t, j)) ∧
    (∀ ts : List TableDetail, updateSheetReport ts = none →
      ∃ t ∈ ts, t.isValid = true ∧ buildObject t.values t.attrRow = none) ∧
    updateSheetReport [mkTableDetail ("Orders") [("a b"), ("")] [[Cell.num 1]],
        mkTableDetail ("Items") [("x")] [[Cell.num 5]]] =
      some [(("Orders"), false, 0, []),
        (("Items"), true, 1, [("["), ("\x7b\"x\":5\x7d"), ("]")])] := by
  refine ⟨?_, ?_, ?_, rfl⟩
  · intro t h
    exact ⟨by simp [tableJson, h], by simp [tableRowCount, h]⟩
  · intro ts
    induction ts with
    | nil =>
      intro res h
      simp only [updateSheetReport, Option.some.injEq] at h
      subst h
      exact ⟨rfl, fun i => by simp⟩
    | cons t ts ih =>
      intro res h
      simp only [updateSheetReport] at h
      cases hj : tableJson t with
      | none => rw [hj] at h; exact absurd h (by simp)
      | some j =>
        rw [hj] at h
        cases hrest : updateSheetReport ts with
        | none => rw [hrest] at h; exact absurd h (by simp)
        | some rest =>
          rw [hrest] at h
          obtain rfl : (t.name, t.isValid, tableRowCount t, j) :: rest = res :=
            Option.some.inj h
          obtain ⟨hlen, hidx⟩ := ih rest hrest
          refine ⟨by simp [hlen], ?_⟩
          intro i
          cases i with
          | zero => simp [hj]
          | succ i' =>
            simp only [List.getElem?_cons_succ]
            exact hidx i'
  · intro ts
    induction ts with
    | nil => intro h; simp [updateSheetReport] at h
    | cons t ts ih =>
      intro h
      simp only [updateSheetReport] at h
      cases hj : tableJson t with
      | none =>
        by_cases hv : t.isValid = true
        · refine ⟨t, List.mem_cons_self t ts, hv, ?_⟩
          simp only [tableJson, hv, if_true] at hj
          exact Option.map_eq_none'.mp hj
        · have hfalse : t.isValid = false := by
            revert hv; cases t.isValid <;> simp
          simp [tableJson, hfalse] at hj
      | some j =>
        rw [hj] at h
        cases hrest : updateSheetReport ts with
        | none =>
          obtain ⟨u, hu, hval, hnone⟩ := ih hrest
          exact ⟨u, List.mem_cons_of_mem t hu, hval, hnone⟩
        | some rest => rw [hrest] at h; exact absurd h (by simp)

/-- Claim C8 witness. -/
theorem claim_c8_witness :
    tableJson (mkTableDetail ("Orders") [("a b"), ("")] []) = some [] ∧
      tableRowCount (mkTableDetail ("Orders") [("a b"), ("")] []) = 0 :=
  claim_c8_amended.1 (mkTableDetail ("Orders") [("a b"), ("")] []) rfl

/-- Claim C8 counterexample: the claim's example table, named `Orders`
with headers `["1bad", ""]`, is NOT reported with validity `false`, row
count `0` and no JSON: `1bad` matches `[a-zA-Z0-9_]+`, so the table is
reported valid, with its actual row count and converted JSON lines. -/
theorem claim_c8_counterexample :
    updateSheetReport [mkTableDetail ("Orders") [("1bad"), ("")] [[Cell.num 2]]] =
      some [(("Orders"), true, 1, [("["), ("\x7b\"1bad\":2\x7d"), ("]")])] := rfl

/-- Claim C3: `isValidAttr` is a total function on strings returning true
exactly for the strings matching the anchored regex — one or more
non-empty segments of word characters joined by single dots — and false
for every other string, including `""`, `"a."`, `".a"`, `"a..b"` and
`"a b"`.  (Totality is inherent: `isValidAttr` is a Lean function.) -/
theorem claim_c3 :
    (∀ s : String, isValidAttr s = true ↔ specKeyPath s) ∧
    isValidAttr ("") = false ∧
    isValidAttr ("a.") = false ∧
    isValidAttr (".a") = false ∧
    isValidAttr ("a..b") = false ∧
    isValidAttr ("a b") = false := by
  refine ⟨?_, rfl, rfl, rfl, rfl, rfl⟩
  intro s
  constructor
  · intro h
    refine ⟨splitChars s.data, splitChars_ne_nil s.data, ?_,
      (joinDots_splitChars s.data).symm⟩
    have hf := (reMatch_eq_splitChars s.data).2
    rw [isValidAttr] at h
    rw [h] at hf
    intro g hg
    have hgood := List.all_eq_true.mp hf.symm g hg
    simp only [Bool.and_eq_true] at hgood
    obtain ⟨hne, hword⟩ := hgood
    constructor
    · intro he
      rw [he] at hne
      exact absurd hne (by decide)
    · intro c hc
      exact List.all_eq_true.mp hword c hc
  · rintro ⟨segs, hne, hcond, hdata⟩
    have hnd : ∀ g ∈ segs, ∀ c ∈ g, (c == '.') = false := by
      intro g hg c hc
      exact word_ne_dot c ((hcond g hg).2 c hc)
    have hsp : splitChars s.data = segs := by
      rw [hdata]
      exact splitChars_joinDots segs hne hnd
    rw [isValidAttr, (reMatch_eq_splitChars s.data).2, hsp]
    rw [List.all_eq_true]
    intro g hg
    obtain ⟨hgne, hword⟩ := hcond g hg
    simp only [Bool.and_eq_true]
    refine ⟨?_, ?_⟩
    · cases g with
      | nil => exact absurd rfl hgne
      | cons c cs => rfl
    · rw [List.all_eq_true]
      intro c hc
      exact hword c hc

/-- Claim C3 witness. -/
theorem claim_c3_witness : specKeyPath ("a.b") :=
  (claim_c3.1 ("a.b")).mp rfl

/-- Claim C4 witness. -/
theorem claim_c4_witness :
    (∀ a ∈ [(""), ("a.b")], a ≠ "" → isValidAttr a = true) ∧
      ∃ a ∈ [(""), ("a.b")], a ≠ "" :=
  (claim_c4.1 [(""), ("a.b")]).mp rfl

end Table2Json
